/-
Verification of the bluepea inspector component
(src/bluepea/static/pylib/inspector.py), shallowly embedded in Lean 4.

The inspector is a Transcrypt (Python compiled to JavaScript) browser UI:
a set of tabbed tables over JSON-like row objects, with client-side
filtering, stable sorting, row selection, and a recursive substring
searcher.  The embedding below translates the relevant classes
(`Table`, `Field` and its subtypes, `Searcher`, `Tabs`,
`EntitiesTable`) into pure Lean functions over an explicit state type.
-/
import Mathlib

namespace Inspector

/-! ### JSON-like values

Row objects arriving from the server are JSON values; in JavaScript they
are plain objects/arrays/strings/numbers.  `Json.null` also stands for
JavaScript `undefined` (a missing key), since the source only ever tests
those with loose equality `== null`, which identifies the two. -/

inductive Json where
  | null : Json
  | bool : Bool → Json
  | num : Int → Json
  | str : String → Json
  | arr : List Json → Json
  | obj : List (String × Json) → Json

/-! ### String primitives

The host string operations used by the source (Python `startswith`,
`endswith`, `lower`, `in`, and lexicographic comparison), modelled over
the character list of a `String`.  `lower` is the ASCII case mapping;
the data handled by the inspector is ASCII. -/

def listPrefixOf : List Char → List Char → Bool
  | [], _ => true
  | _ :: _, [] => false
  | a :: as, b :: bs => a = b && listPrefixOf as bs

/-- Python `s.startswith(t)`. -/
def pyStartsWith (s t : String) : Bool :=
  listPrefixOf t.data s.data

/-- Python `s.endswith(t)`. -/
def pyEndsWith (s t : String) : Bool :=
  listPrefixOf t.data.reverse s.data.reverse

/-- Python `s.lower()` (ASCII case mapping). -/
def pyLower (s : String) : String :=
  ⟨s.data.map Char.toLower⟩

/-- Python `needle in hay` on strings: substring containment, checked
position by position. -/
def listSubstr (needle : List Char) : List Char → Bool
  | [] => listPrefixOf needle []
  | c :: t => listPrefixOf needle (c :: t) || listSubstr needle t

/-- Lexicographic string comparison (host `<=` on the ASCII strings the
tables sort). -/
def charListLe : List Char → List Char → Bool
  | [], _ => true
  | _ :: _, [] => false
  | a :: as, b :: bs => if a = b then charListLe as bs else decide (a < b)

/-- A table row: the payload object together with the synthetic `_uid`
assigned by `Table._setData`.  The transient `_selected` flag that the
source stores as an attribute on the row object is kept in the table
state (`TableState.flagged`, keyed by `_uid`), mirroring how
`Table._selectRow` itself identifies rows by their `_uid`. -/
structure Row where
  uid : Nat
  fields : List (String × Json)

/-- A payload as fetched from the server, before `_setData` assigns it a
`_uid`. -/
abbrev Payload := List (String × Json)

/-- Formatting behaviour of the `Field` subclasses: `plain` is the base
`Field`, `fill` is `FillField`, `date` is `DateField`, `epoch` is
`EpochField`, and `id h` covers `IDField` and its `DIDField`/`HIDField`/
`OIDField`/`MIDField` subclasses, whose only difference is the stripped
`Header` string `h`. -/
inductive FieldKind where
  | plain : FieldKind
  | fill : FieldKind
  | date : FieldKind
  | epoch : FieldKind
  | id : String → FieldKind
deriving DecidableEq

/-- A table column, as built by `Field.__init__`: the display title, the
advisory truncation length `mlength`, and the lookup key `name`, which
the constructor sets to the lowercased title. -/
structure Field where
  kind : FieldKind
  title : String
  mlength : Nat
  name : String
deriving DecidableEq

/-- Field constructor (`Field.__init__`): `name` is the lowercased title. -/
def Field.make (kind : FieldKind) (title : String) (len : Nat) : Field :=
  ⟨kind, title, len, pyLower title⟩

/-! ### Table state

State of one `Table` instance.  `view`, being a pure rendering
description, is not part of the state.  The `_selected` attribute that
`_selectRow` stores on row objects is represented by `flagged`
(the list of `_uid`s of rows currently carrying the attribute), and
`selectedUid` holds the `_uid` of the row referenced by
`self._selected`; `_selectRow` itself compares rows by `_uid` only. -/

structure TableState where
  max_size : Nat
  fields : List Field
  data : List Row
  shownData : List Row
  selectedUid : Option Nat
  flagged : List Nat
  detailSelected : String
  filter : Option (Row → Bool)
  sortField : Option Field
  reversed : Bool
  total : Nat
  shown : Nat

/-- Table constructor (`Table.__init__`). -/
def Table.mkTable (fields : List Field) : TableState :=
  { max_size := 1000, fields := fields, data := [], shownData := [],
    selectedUid := none, flagged := [], detailSelected := "",
    filter := none, sortField := none, reversed := false,
    total := 0, shown := 0 }

/-- Key lookup `obj[name]` on a JavaScript object; a missing key yields
`undefined`, modelled as `Json.null`. -/
def lookupField : List (String × Json) → String → Json
  | [], _ => Json.null
  | (k, v) :: rest, n => if k = n then v else lookupField rest n

/-- Base `Table._getField`: `obj[field.name]`. -/
def Table.getField (r : Row) (f : Field) : Json :=
  lookupField r.fields f.name

/-- Comparison used by the sort pass on extracted cell values.  In the
source the values handed to `sort` are compared by the host `<`/`>`;
rows of one column carry values of one shape (all numbers or all
strings), compared numerically resp. lexicographically.  The embedding
totalises the comparison across shapes by an arbitrary constructor
order, which no table ever exercises. -/
def Json.tag : Json → Nat
  | .null => 0
  | .bool _ => 1
  | .num _ => 2
  | .str _ => 3
  | .arr _ => 4
  | .obj _ => 5

def Json.le : Json → Json → Bool
  | .num a, .num b => decide (a ≤ b)
  | .str a, .str b => charListLe a.data b.data
  | .bool a, .bool b => !a || b
  | a, b => decide (a.tag ≤ b.tag)

/-- Sort relation of `Table._sortData`: ascending by the extracted field
value, or descending when `reversed` (the Python `reverse=True` keeps
ties in their current order, i.e. it flips the comparator, not the
list). -/
def Table.sortLe (f : Field) (rev : Bool) (a b : Row) : Bool :=
  if rev then Json.le (Table.getField b f) (Table.getField a f)
  else Json.le (Table.getField a f) (Table.getField b f)

/-- The sort pass `Table._sortData`: a stable sort of `_shownData` by the
extracted sort-field value (Python list sort and the Transcrypt runtime
sort are stable). -/
def Table.sortData (s : TableState) : TableState :=
  match s.sortField with
  | none => s
  | some f =>
    { s with shownData :=
        List.insertionSort (fun a b => Table.sortLe f s.reversed a b = true) s.shownData }

/-- Filter acceptance in the `_processData` loop: accept when no filter
is set, otherwise when the filter returns truthy. -/
def Table.accepted (filt : Option (Row → Bool)) (r : Row) : Bool :=
  match filt with
  | none => true
  | some f => f r

/-- The row-collection loop of `Table._processData`: walk `data` in
order, stop once `shown` reaches `max_size`, skip rows the filter
rejects, append accepted rows and count them. -/
def Table.processLoop (filt : Option (Row → Bool)) (maxSize : Nat) :
    List Row → Nat → List Row × Nat
  | [], shown => ([], shown)
  | r :: rest, shown =>
    if maxSize ≤ shown then ([], shown)
    else if Table.accepted filt r then
      let p := Table.processLoop filt maxSize rest (shown + 1)
      (r :: p.1, p.2)
    else Table.processLoop filt maxSize rest shown

/-- `Table._processData` up to (but not including) the final `_sortData`
call: recompute `_shownData` and `shown` from `data`. -/
def Table.processDataLoop (s : TableState) : TableState :=
  let p := Table.processLoop s.filter s.max_size s.data 0
  { s with shownData := p.1, shown := p.2 }

/-- `Table._processData`: the collection loop followed by `_sortData`. -/
def Table.processData (s : TableState) : TableState :=
  Table.sortData (Table.processDataLoop s)

/-- `Table.clear`: reset `total` and empty the `data` array in place.
Neither `_shownData` nor the selection is touched. -/
def Table.clearOp (s : TableState) : TableState :=
  { s with total := 0, data := [] }

/-- The append loop of `Table._setData`: each datum gets
`datum._uid = self.total`, is appended to `data`, and `total` is
incremented. -/
def Table.appendRows (s : TableState) (rows : List Payload) : TableState :=
  rows.foldl
    (fun st p => { st with data := st.data ++ [⟨st.total, p⟩], total := st.total + 1 })
    s

/-- `Table._setData(data, clear)`: optionally clear, append the incoming
rows with fresh `_uid`s, then `_processData`. -/
def Table.setData (s : TableState) (rows : List Payload) (clear : Bool) : TableState :=
  Table.processData (Table.appendRows (if clear then Table.clearOp s else s) rows)

/-- `Table.refresh` of the base class: `self._setData([])`. -/
def Table.refreshOp (s : TableState) : TableState :=
  Table.setData s [] true

/-- `Table.setFilter(func)`: the source replaces the filter and
reprocesses only when `func != self.filter` (a reference comparison on
the predicate objects); the embedding takes that comparison's outcome as
the argument `changed`. -/
def Table.setFilter (s : TableState) (func : Option (Row → Bool)) (changed : Bool) :
    TableState :=
  if changed then Table.processData { s with filter := func } else s

/-- `Table.setSort(field)`: toggle the direction on the current sort
field, or start ascending on a new one; then `_sortData`. -/
def Table.setSort (s : TableState) (f : Field) : TableState :=
  Table.sortData
    (if s.sortField = some f then { s with reversed := !s.reversed }
     else { s with reversed := false, sortField := some f })

/-! ### Detail serialization

`Table._stringify(obj)` is `JSON.stringify(obj, replacer, 2)` where the
replacer drops every key starting with `"_"`.  The serializer below
follows the `JSON.stringify` pretty-printing shape for the value forms
that occur here (string escaping is modelled for the escape-worthy
characters these objects contain; `\u` escapes of other control
characters are not exercised).  The `skip` flag reproduces the replacer:
with `skip = true` every underscore-prefixed object key is omitted, at
every nesting level; array positions and the root, whose replacer keys
are decimal indices resp. `""`, are never dropped. -/

def escChar (c : Char) : String :=
  if c = '\\' then "\\\\"
  else if c = '"' then "\\\""
  else if c = '\n' then "\\n"
  else if c = '\t' then "\\t"
  else if c = '\r' then "\\r"
  else String.singleton c

def quoteStr (s : String) : String :=
  "\"" ++ String.join (s.data.map escChar) ++ "\""

/-- Joins pretty-printed members with the `JSON.stringify` indent-2
layout; an empty member list prints as the bare bracket pair. -/
def joinItems (openB closeB gap : String) (items : List String) : String :=
  match items with
  | [] => openB ++ closeB
  | _ =>
    openB ++ "\n" ++ gap ++ "  " ++
      String.intercalate (",\n" ++ gap ++ "  ") items ++
      "\n" ++ gap ++ closeB

mutual

def serValue (skip : Bool) (gap : String) : Json → String
  | .null => "null"
  | .bool b => if b then "true" else "false"
  | .num n => toString n
  | .str s => quoteStr s
  | .arr xs => joinItems "[" "]" gap (serList skip (gap ++ "  ") xs)
  | .obj kvs => joinItems "\x7b" "\x7d" gap (serMembers skip (gap ++ "  ") kvs)

def serList (skip : Bool) (gap : String) : List Json → List String
  | [] => []
  | x :: rest => serValue skip gap x :: serList skip gap rest

def serMembers (skip : Bool) (gap : String) : List (String × Json) → List String
  | [] => []
  | (k, v) :: rest =>
    if skip && pyStartsWith k "_" then serMembers skip gap rest
    else (quoteStr k ++ ": " ++ serValue skip gap v) :: serMembers skip gap rest

end

/-- The row object as it is serialized by `_selectRow`: the payload keys
in arrival order, then the `_uid` attached by `_setData` and the
`_selected` flag, both set before `_stringify` runs. -/
def Table.rowJson (r : Row) : Json :=
  Json.obj (r.fields ++ [("_uid", Json.num (Int.ofNat r.uid)), ("_selected", Json.bool true)])

/-- `Table._stringify` applied to a selected row. -/
def Table.stringifyRow (r : Row) : String :=
  serValue true "" (Table.rowJson r)

mutual

/-- Specification-side scrub: the same object with every
underscore-prefixed key removed, recursively. -/
def stripU : Json → Json
  | .arr xs => Json.arr (stripUList xs)
  | .obj kvs => Json.obj (stripUObj kvs)
  | j => j

def stripUList : List Json → List Json
  | [] => []
  | x :: rest => stripU x :: stripUList rest

def stripUObj : List (String × Json) → List (String × Json)
  | [] => []
  | (k, v) :: rest =>
    if pyStartsWith k "_" then stripUObj rest
    else (k, stripU v) :: stripUObj rest

end

/-- `Table._selectRow(event, obj)`: drop the `_selected` attribute of the
previously selected row (if any); if that row is the one clicked
(compared by `_uid`), clear the selection and the detail text; otherwise
select `obj`, flag it, and set the detail text to its serialization. -/
def Table.selectRow (s : TableState) (obj : Row) : TableState :=
  match s.selectedUid with
  | some u =>
    if u = obj.uid then
      { s with flagged := s.flagged.erase u, selectedUid := none, detailSelected := "" }
    else
      { s with flagged := (s.flagged.erase u) ++ [obj.uid], selectedUid := some obj.uid,
               detailSelected := Table.stringifyRow obj }
  | none =>
    { s with flagged := s.flagged ++ [obj.uid], selectedUid := some obj.uid,
             detailSelected := Table.stringifyRow obj }

/-! ### Field rendering

`Field.view(data)` substitutes `""` for `null`/`undefined` data, formats
it with the subtype's `format`, and renders a `<td>` cell carrying the
formatted string as its `title` attribute and the (identity-)shortened
string as its text.  `EpochField.format` goes through the host
`Date(ms).toISOString()`, modelled below. -/

structure Cell where
  title : String
  text : String
  fill : Bool
deriving DecidableEq

def pad2 (n : Nat) : String :=
  if n < 10 then "0" ++ toString n else toString n

def pad3 (n : Nat) : String :=
  if n < 10 then "00" ++ toString n
  else if n < 100 then "0" ++ toString n
  else toString n

def pad4 (n : Nat) : String :=
  if n < 10 then "000" ++ toString n
  else if n < 100 then "00" ++ toString n
  else if n < 1000 then "0" ++ toString n
  else toString n

/-- Proleptic Gregorian date of a day count relative to 1970-01-01
(the standard civil-from-days conversion). -/
def civilFromDays (z0 : Int) : Int × Nat × Nat :=
  let z := z0 + 719468
  let era : Int := z.fdiv 146097
  let doe : Nat := (z - era * 146097).toNat
  let yoe : Nat := (doe - doe / 1460 + doe / 36524 - doe / 146096) / 365
  let y : Int := (yoe : Int) + era * 400
  let doy : Nat := doe - (365 * yoe + yoe / 4 - yoe / 100)
  let mp : Nat := (5 * doy + 2) / 153
  let d : Nat := doy - (153 * mp + 2) / 5 + 1
  let m : Nat := if mp < 10 then mp + 3 else mp - 9
  (if m ≤ 2 then y + 1 else y, m, d)

/-- Models the host collaborator `new Date(ms).toISOString()` for time
values in the four-digit-year range. -/
def isoOfMs (ms : Int) : String :=
  let days := ms.fdiv 86400000
  let rem : Nat := (ms - days * 86400000).toNat
  let c := civilFromDays days
  pad4 c.1.toNat ++ "-" ++ pad2 c.2.1 ++ "-" ++ pad2 c.2.2 ++
    "T" ++ pad2 (rem / 3600000) ++ ":" ++ pad2 (rem / 60000 % 60) ++
    ":" ++ pad2 (rem / 1000 % 60) ++ "." ++ pad3 (rem % 1000) ++ "Z"

/-- JavaScript numeric coercion for the values `EpochField.format`
receives: server epoch numbers, or the `""` that `view` substitutes for
missing data (which coerces to `0`). -/
def jsToNumber : Json → Int
  | .num n => n
  | _ => 0

/-- Transcrypt `str()` on the values formatted here: strings pass
through, numbers print in the host decimal form. -/
def jsStr : Json → String
  | .str s => s
  | .num n => toString n
  | .bool b => if b then "true" else "false"
  | _ => ""

/-- Per-subtype `format`.  `plain`, `fill` and `date` use the base
`Field.format` (stringification); `epoch` converts through
`Date(data / 1000).toISOString()` (the JavaScript division truncates when
the time value is applied); `id h` strips the leading `Header` string
`h` when present.  The `id` formatter takes a string, as its callers
supply (non-string input would fault in the source and is outside the
modelled domain). -/
def FieldKind.format : FieldKind → Json → String
  | .plain, d => jsStr d
  | .fill, d => jsStr d
  | .date, d => jsStr d
  | .epoch, d => isoOfMs (Int.tdiv (jsToNumber d) 1000)
  | .id h, d =>
    match d with
    | .str s => if pyStartsWith s h then s.drop h.length else s
    | x => jsStr x

/-- `Field.view(data)`: substitute `""` when `data == None` (JavaScript
loose equality, catching both `null` and `undefined`), then format; the
base `shorten` is the identity and no subtype overrides it.
`FillField.view` additionally tags the cell with the `fill-space`
class. -/
def FieldKind.view (k : FieldKind) (data : Json) : Cell :=
  let d := match data with
    | .null => Json.str ""
    | x => x
  let formatted := k.format d
  { title := formatted, text := formatted, fill := k = FieldKind.fill }

/-! ### Searcher

`Searcher` holds the current term and case-sensitivity flag; both are
overwritten by every `setSearch`, so the state is just the pair. -/

structure Searcher where
  searchTerm : String
  caseSensitive : Bool
deriving DecidableEq

/-- `Searcher.setSearch(term)`: `None` normalizes to `""` (`term or ""`);
a term that both starts and ends with a double quote switches on
case-sensitive mode and is stripped of its first and last character
(Python `[1:-1]`); otherwise the term is lowercased. -/
def Searcher.setSearch (term : Option String) : Searcher :=
  let t := match term with
    | none => ""
    | some x => x
  if pyStartsWith t "\"" && pyEndsWith t "\"" then
    { searchTerm := (t.drop 1).dropRight 1, caseSensitive := true }
  else
    { searchTerm := pyLower t, caseSensitive := false }

/-- `Searcher._checkPrimitive(item)`: only strings can match; the string
is lowercased first unless the search is case sensitive. -/
def Searcher.checkPrimitive (sr : Searcher) (item : Json) : Bool :=
  match item with
  | .str s =>
    let s := if sr.caseSensitive then s else pyLower s
    listSubstr sr.searchTerm.data s.data
  | _ => false

mutual

/-- `Searcher._checkAny(value)`: recurse into mapping-like values via
`search`, into sequences element by element, and test anything else as a
primitive. -/
def Searcher.checkAny (sr : Searcher) : Json → Bool
  | .obj kvs => Searcher.searchObj sr kvs
  | .arr xs => Searcher.checkList sr xs
  | j => Searcher.checkPrimitive sr j

def Searcher.checkList (sr : Searcher) : List Json → Bool
  | [] => false
  | x :: rest => Searcher.checkAny sr x || Searcher.checkList sr rest

/-- `Searcher.search(obj)`: scan the object's keys in order, skipping
every key that starts with `"_"`, and succeed on the first value
`_checkAny` accepts. -/
def Searcher.searchObj (sr : Searcher) : List (String × Json) → Bool
  | [] => false
  | (k, v) :: rest =>
    if pyStartsWith k "_" then Searcher.searchObj sr rest
    else Searcher.checkAny sr v || Searcher.searchObj sr rest

end

/-- `self.searcher.search` as installed by `Tabs` as a table filter: the
filter receives the row object (whose `_uid`/`_selected` bookkeeping
keys would be skipped as underscore-prefixed anyway). -/
def Searcher.searchRow (sr : Searcher) (r : Row) : Bool :=
  Searcher.searchObj sr r.fields

mutual

/-- Specification-side reachable-string collection: every string value
reachable from the object by descending through nested mappings and
sequences, never through an underscore-prefixed key. -/
def reachableAny : Json → List String
  | .str s => [s]
  | .obj kvs => reachableObj kvs
  | .arr xs => reachableList xs
  | _ => []

def reachableList : List Json → List String
  | [] => []
  | x :: rest => reachableAny x ++ reachableList rest

def reachableObj : List (String × Json) → List String
  | [] => []
  | (k, v) :: rest =>
    (if pyStartsWith k "_" then [] else reachableAny v) ++ reachableObj rest

end

/-- Specification-side match test: the stored (already case-normalized)
term occurs in the candidate string, which is lowercased first in
case-insensitive mode — exactly `_checkPrimitive` on a string. -/
def Searcher.matchesStr (sr : Searcher) (s : String) : Bool :=
  listSubstr sr.searchTerm.data (if sr.caseSensitive then s else pyLower s).data

/-! ### Tabs refresh coordination

`Tabs.refresh` guards against overlapping aggregate refreshes: a call
while `_refreshing` is set returns the stored `_refreshPromise`
unchanged and triggers nothing; otherwise it sets the flag, starts one
table refresh per tab, and installs a fresh aggregate promise whose
`then` and `catch` continuations both clear the flag.  The embedding is
a state machine: promise handles are numbered in creation order, and the
settlement (fulfilment or rejection) of the aggregate is the `settle`
event, which runs `done`.  `rounds` and `tableRefreshes` are
instrumentation counting started aggregate rounds and issued per-table
refreshes. -/

structure TabsState where
  refreshing : Bool
  refreshPromise : Option Nat
  nextHandle : Nat
  rounds : Nat
  tableRefreshes : Nat

/-- The five tabs built by `Tabs.__init__` (Entities, Issuants, Offers,
Messages, AnonMsgs). -/
def Tabs.numTabs : Nat := 5

def Tabs.mkTabs : TabsState :=
  { refreshing := false, refreshPromise := none, nextHandle := 0,
    rounds := 0, tableRefreshes := 0 }

/-- `Tabs.refresh()`: returns the resulting state and the promise handle
handed back to the caller. -/
def Tabs.refreshOp (s : TabsState) : TabsState × Option Nat :=
  if s.refreshing then (s, s.refreshPromise)
  else
    ({ refreshing := true, refreshPromise := some s.nextHandle,
       nextHandle := s.nextHandle + 1, rounds := s.rounds + 1,
       tableRefreshes := s.tableRefreshes + Tabs.numTabs },
     some s.nextHandle)

/-- Settlement of the pending aggregate promise: both the fulfilment and
the rejection continuation run `done`, which clears `_refreshing`. -/
def Tabs.settleOp (s : TabsState) : TabsState :=
  { s with refreshing := false }

inductive TabsEvent where
  | call : TabsEvent
  | settle : TabsEvent
deriving DecidableEq

def Tabs.step (s : TabsState) : TabsEvent → TabsState
  | .call => (Tabs.refreshOp s).1
  | .settle => Tabs.settleOp s

def Tabs.run (s : TabsState) (evs : List TabsEvent) : TabsState :=
  evs.foldl Tabs.step s

def countSettles (evs : List TabsEvent) : Nat :=
  evs.countP (fun e => match e with | .settle => true | .call => false)

/-- `Tabs.searchAll()`: set the searcher from the search-box text and
install `self.searcher.search` as the filter of every table.  Each
attribute access `self.searcher.search` yields a fresh bound-function
object, so the `func != self.filter` test in `setFilter` passes and the
tables reprocess. -/
def Tabs.searchAllOp (tables : List TableState) (text : String) :
    Searcher × List TableState :=
  let sr := Searcher.setSearch (some text)
  (sr, tables.map (fun t => Table.setFilter t (some (Searcher.searchRow sr)) true))

/-! ### EntitiesTable refresh

`EntitiesTable.refresh` clears once, then merges two fetched batches
(agents, things) with `clear=False` each; the aggregate resolves when
both have been fed in.  The embedding sequences the two `_setData`
completions in the order the claim fixes (agents first). -/

def EntitiesTable.refreshSteps (s : TableState) (agents things : List Payload) :
    TableState :=
  Table.setData (Table.setData (Table.clearOp s) agents false) things false

/-! ### Lemmas about the `_processData` loop -/

theorem processLoop_spec (filt : Option (Row → Bool)) (m : Nat) :
    ∀ (l : List Row) (k : Nat),
      Table.processLoop filt m l k =
        ((l.filter (Table.accepted filt)).take (m - k),
         k + min ((l.filter (Table.accepted filt)).length) (m - k)) := by
  intro l
  induction l with
  | nil => intro k; simp [Table.processLoop]
  | cons r rest ih =>
    intro k
    by_cases hk : m ≤ k
    · have hmk : m - k = 0 := Nat.sub_eq_zero_of_le hk
      simp [Table.processLoop, hk, hmk]
    · by_cases hacc : Table.accepted filt r = true
      · have hmk : m - k = (m - (k + 1)) + 1 := by omega
        simp only [Table.processLoop, if_neg hk, hacc, if_true, ih (k + 1),
          List.filter_cons_of_pos hacc, hmk, List.take_succ_cons,
          List.length_cons, Prod.mk.injEq, true_and]
        omega
      · have hacc' : Table.accepted filt r = false := by
          cases h : Table.accepted filt r
          · rfl
          · exact absurd h hacc
        simp [Table.processLoop, hk, hacc', ih k, List.filter_cons_of_neg, hacc]

theorem processDataLoop_shownData (s : TableState) :
    (Table.processDataLoop s).shownData =
      (s.data.filter (Table.accepted s.filter)).take s.max_size := by
  simp [Table.processDataLoop, processLoop_spec]

theorem processDataLoop_shown (s : TableState) :
    (Table.processDataLoop s).shown = (Table.processDataLoop s).shownData.length := by
  simp [Table.processDataLoop, processLoop_spec, List.length_take, Nat.min_comm]

theorem processDataLoop_shown_le (s : TableState) :
    (Table.processDataLoop s).shown ≤ s.max_size := by
  simp [Table.processDataLoop, processLoop_spec]

/-! ### Lemmas about the sort pass -/

theorem sortData_shownData_perm (s : TableState) :
    (Table.sortData s).shownData.Perm s.shownData := by
  unfold Table.sortData
  cases s.sortField with
  | none => exact List.Perm.refl _
  | some f => exact List.perm_insertionSort _ _

theorem sortData_only_shownData (s : TableState) :
    Table.sortData s = { s with shownData := (Table.sortData s).shownData } := by
  cases h : s.sortField with
  | none => simp only [Table.sortData, h]; rw [← h]
  | some f => simp [Table.sortData, h]

theorem processData_only_shown (s : TableState) :
    Table.processData s =
      { s with shownData := (Table.processData s).shownData,
               shown := (Table.processData s).shown } := by
  unfold Table.processData Table.processDataLoop
  cases h : (Table.processDataLoop s).sortField <;>
    simp_all [Table.sortData, Table.processDataLoop]

theorem processData_shownData_perm (s : TableState) :
    (Table.processData s).shownData.Perm
      ((s.data.filter (Table.accepted s.filter)).take s.max_size) := by
  unfold Table.processData
  exact (sortData_shownData_perm _).trans (by rw [processDataLoop_shownData])

theorem processData_shown_eq (s : TableState) :
    (Table.processData s).shown = (Table.processData s).shownData.length := by
  unfold Table.processData
  rw [(sortData_shownData_perm _).length_eq]
  rw [show (Table.sortData (Table.processDataLoop s)).shown
        = (Table.processDataLoop s).shown from by
      rw [sortData_only_shownData (Table.processDataLoop s)]]
  exact processDataLoop_shown s

theorem processData_shown_le (s : TableState) :
    (Table.processData s).shown ≤ s.max_size := by
  unfold Table.processData
  rw [show (Table.sortData (Table.processDataLoop s)).shown
        = (Table.processDataLoop s).shown from by
      rw [sortData_only_shownData (Table.processDataLoop s)]]
  exact processDataLoop_shown_le s

theorem mem_processData_shownData {s : TableState} {r : Row}
    (h : r ∈ (Table.processData s).shownData) :
    r ∈ s.data ∧ Table.accepted s.filter r = true := by
  have hm := (processData_shownData_perm s).mem_iff.mp h
  have hm' := List.mem_of_mem_take hm
  exact ⟨List.mem_of_mem_filter hm', List.of_mem_filter hm'⟩

/-! ### Lemmas about `_setData` -/

/-- The rows that a `_setData` starting from total `n` builds out of the
incoming payloads: consecutive `_uid`s from `n` on, in arrival order. -/
def rowsFrom (n : Nat) : List Payload → List Row
  | [] => []
  | p :: rest => ⟨n, p⟩ :: rowsFrom (n + 1) rest

theorem appendRows_spec (rows : List Payload) :
    ∀ s : TableState,
      Table.appendRows s rows =
        { s with data := s.data ++ rowsFrom s.total rows,
                 total := s.total + rows.length } := by
  induction rows with
  | nil => intro s; simp [Table.appendRows, rowsFrom]
  | cons p rest ih =>
    intro s
    show Table.appendRows _ rest = _
    rw [ih]
    simp [rowsFrom, List.append_assoc]
    omega

theorem rowsFrom_map_uid (rows : List Payload) :
    ∀ n, (rowsFrom n rows).map Row.uid = List.range' n rows.length := by
  induction rows with
  | nil => intro n; simp [rowsFrom]
  | cons p rest ih => intro n; simp [rowsFrom, List.range'_succ, ih]

theorem rowsFrom_map_fields (rows : List Payload) :
    ∀ n, (rowsFrom n rows).map Row.fields = rows := by
  induction rows with
  | nil => intro n; simp [rowsFrom]
  | cons p rest ih => intro n; simp [rowsFrom, ih]

theorem processData_data (s : TableState) : (Table.processData s).data = s.data := by
  conv_lhs => rw [processData_only_shown s]

theorem processData_total (s : TableState) : (Table.processData s).total = s.total := by
  conv_lhs => rw [processData_only_shown s]

theorem processData_max_size (s : TableState) :
    (Table.processData s).max_size = s.max_size := by
  conv_lhs => rw [processData_only_shown s]

theorem processData_filter (s : TableState) :
    (Table.processData s).filter = s.filter := by
  conv_lhs => rw [processData_only_shown s]

theorem processData_selectedUid (s : TableState) :
    (Table.processData s).selectedUid = s.selectedUid := by
  conv_lhs => rw [processData_only_shown s]

theorem processData_flagged (s : TableState) :
    (Table.processData s).flagged = s.flagged := by
  conv_lhs => rw [processData_only_shown s]

theorem processData_sortField (s : TableState) :
    (Table.processData s).sortField = s.sortField := by
  conv_lhs => rw [processData_only_shown s]

theorem processData_reversed (s : TableState) :
    (Table.processData s).reversed = s.reversed := by
  conv_lhs => rw [processData_only_shown s]

/-- `_processData` reads neither `_shownData` nor `shown`: it overwrites
both from `data`, so the values they held beforehand are immaterial. -/
theorem processData_ignores_shown (s : TableState) (a : List Row) (b : Nat) :
    Table.processData { s with shownData := a, shown := b } = Table.processData s := rfl

theorem appendRows_ignores_shown (rows : List Payload) (s : TableState)
    (a : List Row) (b : Nat) :
    Table.appendRows { s with shownData := a, shown := b } rows =
      { Table.appendRows s rows with shownData := a, shown := b } := by
  rw [appendRows_spec, appendRows_spec]

/-! ### Sort stability helpers -/

theorem Json.le_refl (j : Json) : Json.le j j = true := by
  cases j with
  | num a => simp [Json.le]
  | str a =>
    show charListLe a.data a.data = true
    induction a.data with
    | nil => rfl
    | cons c cs ih => simp [charListLe, ih]
  | bool b => cases b <;> rfl
  | null => rfl
  | arr xs => simp [Json.le, Json.tag]
  | obj kvs => simp [Json.le, Json.tag]

theorem sortLe_of_eq {f : Field} {rev : Bool} {a b : Row}
    (h : Table.getField a f = Table.getField b f) :
    Table.sortLe f rev a b = true := by
  unfold Table.sortLe
  rw [h]
  cases rev <;> simp [Json.le_refl]

/-- Stability of the sort pass: a pair of rows related by the sort
comparator (in particular, rows with equal keys) stays in its current
relative order. -/
theorem sortData_pair_sublist {s : TableState} {a b : Row}
    (h : List.Sublist [a, b] s.shownData)
    (hab : ∀ f, s.sortField = some f → Table.sortLe f s.reversed a b = true) :
    List.Sublist [a, b] (Table.sortData s).shownData := by
  unfold Table.sortData
  cases hf : s.sortField with
  | none => exact h
  | some f =>
    exact List.pair_sublist_insertionSort (hab f hf) h

theorem setSort_shownData_perm (s : TableState) (f : Field) :
    (Table.setSort s f).shownData.Perm s.shownData := by
  unfold Table.setSort
  by_cases h : s.sortField = some f <;>
    simpa [h] using sortData_shownData_perm _

theorem sortData_sortField (s : TableState) :
    (Table.sortData s).sortField = s.sortField := by
  conv_lhs => rw [sortData_only_shownData s]

theorem sortData_reversed (s : TableState) :
    (Table.sortData s).reversed = s.reversed := by
  conv_lhs => rw [sortData_only_shownData s]

theorem sortData_data (s : TableState) : (Table.sortData s).data = s.data := by
  conv_lhs => rw [sortData_only_shownData s]

theorem sortData_shown (s : TableState) : (Table.sortData s).shown = s.shown := by
  conv_lhs => rw [sortData_only_shownData s]

theorem sortData_max_size (s : TableState) :
    (Table.sortData s).max_size = s.max_size := by
  conv_lhs => rw [sortData_only_shownData s]

theorem sortData_selectedUid (s : TableState) :
    (Table.sortData s).selectedUid = s.selectedUid := by
  conv_lhs => rw [sortData_only_shownData s]

/-! ### Serializer refinement

Serializing with the underscore-hiding replacer is serializing the
scrubbed object. -/

mutual

theorem serValue_stripU : ∀ (gap : String) (j : Json),
    serValue true gap j = serValue false gap (stripU j)
  | _, .null => rfl
  | _, .bool _ => rfl
  | _, .num _ => rfl
  | _, .str _ => rfl
  | gap, .arr xs => by
    simp only [serValue, stripU]
    rw [serList_stripU]
  | gap, .obj kvs => by
    simp only [serValue, stripU]
    rw [serMembers_stripU]

theorem serList_stripU : ∀ (gap : String) (xs : List Json),
    serList true gap xs = serList false gap (stripUList xs)
  | _, [] => rfl
  | gap, x :: rest => by
    simp only [serList, stripUList]
    rw [serValue_stripU, serList_stripU]

theorem serMembers_stripU : ∀ (gap : String) (kvs : List (String × Json)),
    serMembers true gap kvs = serMembers false gap (stripUObj kvs)
  | _, [] => rfl
  | gap, (k, v) :: rest => by
    by_cases hk : pyStartsWith k "_" = true
    · simp only [serMembers, stripUObj, hk, Bool.true_and, if_true]
      rw [serMembers_stripU]
    · simp only [serMembers, stripUObj, hk, Bool.true_and, if_false, Bool.false_and]
      rw [serValue_stripU, serMembers_stripU]

end

theorem stripUObj_append (l₁ l₂ : List (String × Json)) :
    stripUObj (l₁ ++ l₂) = stripUObj l₁ ++ stripUObj l₂ := by
  induction l₁ with
  | nil => rfl
  | cons kv rest ih =>
    obtain ⟨k, v⟩ := kv
    by_cases hk : pyStartsWith k "_" = true <;>
      simp [stripUObj, hk, ih]

/-- `_stringify` on a freshly selected row prints the scrubbed payload:
the bookkeeping keys `_uid` and `_selected`, and every other
underscore-prefixed key at any depth, are omitted. -/
theorem stringifyRow_eq_plain (r : Row) :
    Table.stringifyRow r = serValue false "" (stripU (Json.obj r.fields)) := by
  unfold Table.stringifyRow Table.rowJson
  rw [serValue_stripU]
  simp only [stripU]
  rw [stripUObj_append]
  simp [stripUObj, pyStartsWith, listPrefixOf]

/-! ### Searcher refinement -/

mutual

theorem checkAny_reachable (sr : Searcher) : ∀ j : Json,
    Searcher.checkAny sr j = (reachableAny j).any (Searcher.matchesStr sr)
  | .null => rfl
  | .bool _ => rfl
  | .num _ => rfl
  | .str s => by
    simp [Searcher.checkAny, Searcher.checkPrimitive, reachableAny,
      Searcher.matchesStr]
  | .arr xs => by
    simp only [Searcher.checkAny, reachableAny]
    rw [checkList_reachable]
  | .obj kvs => by
    simp only [Searcher.checkAny, reachableAny]
    rw [searchObj_reachable]

theorem checkList_reachable (sr : Searcher) : ∀ xs : List Json,
    Searcher.checkList sr xs = (reachableList xs).any (Searcher.matchesStr sr)
  | [] => rfl
  | x :: rest => by
    simp only [Searcher.checkList, reachableList, List.any_append]
    rw [checkAny_reachable, checkList_reachable]

theorem searchObj_reachable (sr : Searcher) : ∀ kvs : List (String × Json),
    Searcher.searchObj sr kvs = (reachableObj kvs).any (Searcher.matchesStr sr)
  | [] => rfl
  | (k, v) :: rest => by
    by_cases hk : pyStartsWith k "_" = true
    · simp only [Searcher.searchObj, reachableObj, hk, if_true, List.nil_append]
      rw [searchObj_reachable]
    · simp only [Searcher.searchObj, reachableObj, hk, if_false, List.any_append]
      rw [checkAny_reachable, searchObj_reachable]
      simp

end

/-! ### Selection -/

/-- Well-formedness of the selection bookkeeping: exactly the row
referenced by `self._selected` carries the `_selected` attribute. -/
def Table.selWF (s : TableState) : Prop :=
  match s.selectedUid with
  | some u => s.flagged = [u]
  | none => s.flagged = []

/-! ### Tabs refresh trace accounting -/

/-- Potential of a `Tabs` state: started rounds plus one free slot when
no refresh is in flight. -/
def tabsPotential (s : TabsState) : Nat :=
  s.rounds + (if s.refreshing then 0 else 1)

theorem tabsStep_potential (s : TabsState) (e : TabsEvent) :
    tabsPotential (Tabs.step s e) ≤
      tabsPotential s + (if e = TabsEvent.settle then 1 else 0) := by
  cases e with
  | call =>
    by_cases h : s.refreshing = true <;>
      simp [Tabs.step, Tabs.refreshOp, tabsPotential, h]
  | settle =>
    by_cases h : s.refreshing = true <;>
      simp [Tabs.step, Tabs.settleOp, tabsPotential, h]

theorem run_potential : ∀ (evs : List TabsEvent) (s : TabsState),
    tabsPotential (Tabs.run s evs) ≤ tabsPotential s + countSettles evs := by
  intro evs
  induction evs with
  | nil => intro s; simp [Tabs.run, countSettles]
  | cons e rest ih =>
    intro s
    have h1 : Tabs.run s (e :: rest) = Tabs.run (Tabs.step s e) rest := rfl
    rw [h1]
    calc tabsPotential (Tabs.run (Tabs.step s e) rest)
        ≤ tabsPotential (Tabs.step s e) + countSettles rest := ih _
      _ ≤ tabsPotential s + (if e = TabsEvent.settle then 1 else 0) + countSettles rest := by
          have := tabsStep_potential s e; omega
      _ ≤ tabsPotential s + countSettles (e :: rest) := by
          have hc : countSettles (e :: rest)
              = countSettles rest + (if e = TabsEvent.settle then 1 else 0) := by
            simp only [countSettles, List.countP_cons]
            cases e <;> simp
          omega

/-! ### Concrete instances used by the scenario claims and witnesses -/

def uidField : Field := Field.make (FieldKind.id "") "UID" 4

def dateField : Field := Field.make FieldKind.date "Date" 12

/-- The rows of the concrete sort scenario:
`[{uid:"a",date:1},{uid:"b",date:3},{uid:"c",date:2}]`. -/
def demoRows : List Payload :=
  [[("uid", Json.str "a"), ("date", Json.num 1)],
   [("uid", Json.str "b"), ("date", Json.num 3)],
   [("uid", Json.str "c"), ("date", Json.num 2)]]

def demoTable : TableState :=
  Table.setData (Table.mkTable [uidField, dateField]) demoRows true

def demoSorted1 : TableState := Table.setSort demoTable dateField

def demoSorted2 : TableState := Table.setSort demoSorted1 dateField

def demoRow0 : Row := ⟨0, [("uid", Json.str "a"), ("date", Json.num 1)]⟩

def demoRow1 : Row := ⟨1, [("uid", Json.str "b"), ("date", Json.num 3)]⟩

/-- A table whose two rows tie on `date`, for exercising sort
stability. -/
def dupTable : TableState :=
  Table.setData (Table.mkTable [uidField, dateField])
    [[("uid", Json.str "a"), ("date", Json.num 1)],
     [("uid", Json.str "b"), ("date", Json.num 1)]] true

def dupRow0 : Row := ⟨0, [("uid", Json.str "a"), ("date", Json.num 1)]⟩

def dupRow1 : Row := ⟨1, [("uid", Json.str "b"), ("date", Json.num 1)]⟩

/-! ### The claims -/

/-- C1: for every `Table` state (any data, any filter or none), after
`_processData` runs, the shown subsequence `_shownData` — before the
sort pass — is exactly the insertion-ordered prefix of `data` consisting
of the rows the filter accepts (all rows when no filter is set),
truncated at `max_size` accepted rows (`max_size` is 1000 as
constructed), and `shown` equals its length. -/
theorem claim_C1_processData_shown_prefix (s : TableState) (fs : List Field) :
    (Table.processDataLoop s).shownData
        = (s.data.filter (Table.accepted s.filter)).take s.max_size
  ∧ (Table.processDataLoop s).shown = (Table.processDataLoop s).shownData.length
  ∧ (∀ r, Table.accepted none r = true)
  ∧ (Table.mkTable fs).max_size = 1000 := by
  refine ⟨processDataLoop_shownData s, processDataLoop_shown s, fun r => rfl, rfl⟩

/-- C2: `setSort(F)` on a table not currently sorted by `F` sets
ascending sort on `F`; a second `setSort(F)` toggles the direction; two
consecutive `setSort(F)` calls permute the shown rows without changing
their multiset; the sort pass is stable (a pair of rows with equal
extracted keys keeps its relative order); and on the concrete rows
`a(date 1), b(date 3), c(date 2)` one `setSort(dateField)` shows
`a, c, b` and a second shows `b, c, a`. -/
theorem claim_C2_setSort_toggle_stable (s : TableState) (f : Field) :
    (s.sortField ≠ some f →
      (Table.setSort s f).sortField = some f ∧ (Table.setSort s f).reversed = false)
  ∧ (s.sortField = some f →
      (Table.setSort s f).sortField = some f
      ∧ (Table.setSort s f).reversed = !s.reversed)
  ∧ (Table.setSort (Table.setSort s f) f).shownData.Perm s.shownData
  ∧ (∀ a b : Row, List.Sublist [a, b] s.shownData →
      Table.getField a f = Table.getField b f →
      List.Sublist [a, b] (Table.setSort s f).shownData)
  ∧ demoSorted1.shownData.map (fun r => Table.getField r uidField)
      = [Json.str "a", Json.str "c", Json.str "b"]
  ∧ demoSorted2.shownData.map (fun r => Table.getField r uidField)
      = [Json.str "b", Json.str "c", Json.str "a"] := by
  refine ⟨?_, ?_, ?_, ?_, rfl, rfl⟩
  · intro h
    unfold Table.setSort
    rw [if_neg h]
    exact ⟨sortData_sortField _, sortData_reversed _⟩
  · intro h
    unfold Table.setSort
    rw [if_pos h]
    exact ⟨by rw [sortData_sortField]; exact h, sortData_reversed _⟩
  · exact (setSort_shownData_perm _ f).trans (setSort_shownData_perm s f)
  · intro a b hsub hkey
    unfold Table.setSort
    by_cases h : s.sortField = some f
    · rw [if_pos h]
      exact sortData_pair_sublist hsub
        (fun f' hf' => by
          have hff : f' = f := by
            have h2 : some f' = some f := hf'.symm.trans h
            exact Option.some.injEq _ _ ▸ h2
          subst hff
          exact sortLe_of_eq hkey)
    · rw [if_neg h]
      exact sortData_pair_sublist hsub
        (fun f' hf' => by
          have hff : f' = f := by
            simpa using hf'.symm
          subst hff
          exact sortLe_of_eq hkey)

/-- Witness for C2 at concrete inputs: the demo table starts unsorted,
so the first `setSort` is ascending; the sorted table toggles to
descending on the second call; and a pair of equal-date rows keeps its
order through the sort. -/
theorem claim_C2_setSort_toggle_stable_witness :
    ((Table.setSort demoTable dateField).sortField = some dateField
      ∧ (Table.setSort demoTable dateField).reversed = false)
  ∧ ((Table.setSort demoSorted1 dateField).sortField = some dateField
      ∧ (Table.setSort demoSorted1 dateField).reversed = !demoSorted1.reversed)
  ∧ List.Sublist [dupRow0, dupRow1] (Table.setSort dupTable dateField).shownData := by
  refine ⟨?_, ?_, ?_⟩
  · exact (claim_C2_setSort_toggle_stable demoTable dateField).1 (by decide)
  · exact (claim_C2_setSort_toggle_stable demoSorted1 dateField).2.1 (by decide)
  · refine (claim_C2_setSort_toggle_stable dupTable dateField).2.2.2.1 dupRow0 dupRow1 ?_ rfl
    have h : dupTable.shownData = [dupRow0, dupRow1] := rfl
    rw [h]

/-- C8: with `clear=true` the resulting row count is the size of the
incoming batch whatever the prior state, and the assigned `_uid`s are
`0, 1, 2, ...` in arrival order; with `clear=false` the batch is
appended with `_uid`s continuing from the running total, so `_uid`s
equal positions and increase monotonically across calls. -/
theorem claim_C8_setData_ids (s : TableState) (rows : List Payload) (c : Bool) :
    (Table.setData s rows true).total = rows.length
  ∧ (Table.setData s rows true).data.map Row.uid = List.range rows.length
  ∧ (Table.setData s rows false).data = s.data ++ rowsFrom s.total rows
  ∧ (Table.setData s rows false).total = s.total + rows.length
  ∧ (s.data.map Row.uid = List.range s.total →
      (Table.setData s rows c).data.map Row.uid
        = List.range (Table.setData s rows c).total) := by
  refine ⟨?_, ?_, ?_, ?_, ?_⟩
  · unfold Table.setData
    rw [processData_total, if_pos rfl, appendRows_spec]
    simp [Table.clearOp]
  · unfold Table.setData
    rw [processData_data, if_pos rfl, appendRows_spec]
    simp [Table.clearOp, rowsFrom_map_uid, List.range_eq_range']
  · unfold Table.setData
    rw [processData_data, if_neg (by simp), appendRows_spec]
  · unfold Table.setData
    rw [processData_total, if_neg (by simp), appendRows_spec]
  · intro h
    unfold Table.setData
    rw [processData_data, processData_total, appendRows_spec]
    cases c with
    | true =>
      simp [Table.clearOp, rowsFrom_map_uid, List.range_eq_range']
    | false =>
      simp only [Bool.false_eq_true, if_false, List.map_append, h,
        rowsFrom_map_uid, List.range_eq_range']
      rw [Nat.add_comm s.total rows.length]
      have ha := List.range'_append 0 s.total rows.length 1
      simpa using ha

/-- Witness for C8: from the demo table (3 rows, `_uid`s `0, 1, 2`), a
non-clearing `_setData` keeps the `_uid`s consecutive from 0. -/
theorem claim_C8_setData_ids_witness :
    (Table.setData demoTable [[("uid", Json.str "d")]] false).data.map Row.uid
      = List.range (Table.setData demoTable [[("uid", Json.str "d")]] false).total := by
  exact (claim_C8_setData_ids demoTable [[("uid", Json.str "d")]] false).2.2.2.2 rfl

/-! ### C3: the shown/selection invariant -/

/-- The invariant claimed for every operation: shown rows are rows of
`data`, the shown count is at most `max_size`, and the selected row, if
any, is a row of `data`. -/
def Table.inv (s : TableState) : Prop :=
  (∀ r ∈ s.shownData, r ∈ s.data)
  ∧ s.shown ≤ s.max_size
  ∧ (∀ u, s.selectedUid = some u → ∃ r ∈ s.data, r.uid = u)

theorem selectRow_of_none (s : TableState) (obj : Row) (h : s.selectedUid = none) :
    Table.selectRow s obj =
      { s with flagged := s.flagged ++ [obj.uid], selectedUid := some obj.uid,
               detailSelected := Table.stringifyRow obj } := by
  unfold Table.selectRow
  rw [h]

theorem selectRow_of_same (s : TableState) (obj : Row) (u : Nat)
    (h : s.selectedUid = some u) (he : u = obj.uid) :
    Table.selectRow s obj =
      { s with flagged := s.flagged.erase u, selectedUid := none,
               detailSelected := "" } := by
  unfold Table.selectRow
  rw [h]
  show (if u = obj.uid then _ else _) = _
  rw [if_pos he]

theorem selectRow_of_other (s : TableState) (obj : Row) (u : Nat)
    (h : s.selectedUid = some u) (he : ¬ u = obj.uid) :
    Table.selectRow s obj =
      { s with flagged := (s.flagged.erase u) ++ [obj.uid],
               selectedUid := some obj.uid,
               detailSelected := Table.stringifyRow obj } := by
  unfold Table.selectRow
  rw [h]
  show (if u = obj.uid then _ else _) = _
  rw [if_neg he]

/-- The one-row table state the C3 counterexample clears: row 0 is
shown and selected. -/
def selState : TableState :=
  Table.selectRow (Table.setData (Table.mkTable [uidField]) [[("uid", Json.str "a")]] true)
    ⟨0, [("uid", Json.str "a")]⟩

/-- Counterexample to C3 as stated: `clear` empties `data` but leaves
both the shown subsequence and the selection in place, so after clearing
a table with a shown, selected row, the shown row and the selected row
are no longer members of `data`. -/
theorem claim_C3_counterexample : ¬ Table.inv (Table.clearOp selState) := by
  intro hinv
  have hs : (Table.clearOp selState).shownData = [⟨0, [("uid", Json.str "a")]⟩] := rfl
  have hd : (Table.clearOp selState).data = [] := rfl
  have hm := hinv.1 ⟨0, [("uid", Json.str "a")]⟩ (by rw [hs]; exact List.mem_singleton.mpr rfl)
  rw [hd] at hm
  exact absurd hm (List.not_mem_nil _)

/-- C3 amended: `_setData` always (re)establishes `shown ⊆ data` and
`shown ≤ max_size`; it preserves selected-row membership when appending
(`clear=false`), and the full invariant when clearing with no active
selection (likewise `refresh`, which is a clearing `_setData`);
`setFilter`, `setSort`, and `_selectRow` applied to a member of `data`
preserve the full invariant.  A bare `clear` — and a clearing `_setData`
or `refresh` while a row is selected — is not invariant-preserving: it
leaves the stale shown rows resp. the stale selection behind
(see the counterexample). -/
theorem claim_C3_invariant_amended (s : TableState) (rows : List Payload)
    (c : Bool) (f : Option (Row → Bool)) (chg : Bool) (fld : Field) (obj : Row) :
    (∀ r ∈ (Table.setData s rows c).shownData, r ∈ (Table.setData s rows c).data)
  ∧ (Table.setData s rows c).shown ≤ (Table.setData s rows c).max_size
  ∧ (Table.inv s → Table.inv (Table.setData s rows false))
  ∧ (s.selectedUid = none → Table.inv (Table.setData s rows true))
  ∧ (s.selectedUid = none → Table.inv (Table.refreshOp s))
  ∧ (Table.inv s → Table.inv (Table.setFilter s f chg))
  ∧ (Table.inv s → Table.inv (Table.setSort s fld))
  ∧ (Table.inv s → obj ∈ s.data → Table.inv (Table.selectRow s obj)) := by
  have base_mem : ∀ (c' : Bool) (r : Row),
      r ∈ (Table.setData s rows c').shownData → r ∈ (Table.setData s rows c').data := by
    intro c' r hr
    unfold Table.setData at hr ⊢
    rw [processData_data]
    exact (mem_processData_shownData hr).1
  have base_shown : ∀ c' : Bool,
      (Table.setData s rows c').shown ≤ (Table.setData s rows c').max_size := by
    intro c'
    unfold Table.setData
    rw [processData_max_size, appendRows_spec]
    exact processData_shown_le _
  have setData_sel : ∀ c' : Bool,
      (Table.setData s rows c').selectedUid
        = (if c' then Table.clearOp s else s).selectedUid := by
    intro c'
    unfold Table.setData
    rw [processData_selectedUid, appendRows_spec]
  refine ⟨base_mem c, base_shown c, ?_, ?_, ?_, ?_, ?_, ?_⟩
  · intro hinv
    refine ⟨base_mem false, base_shown false, ?_⟩
    intro u hu
    rw [setData_sel false] at hu
    obtain ⟨r, hr, hru⟩ := hinv.2.2 u hu
    refine ⟨r, ?_, hru⟩
    unfold Table.setData
    rw [processData_data, appendRows_spec]
    exact List.mem_append_left _ hr
  · intro hsel
    refine ⟨base_mem true, base_shown true, ?_⟩
    intro u hu
    rw [setData_sel true] at hu
    simp only [Table.clearOp] at hu
    rw [hsel] at hu
    cases hu
  · intro hsel
    show Table.inv (Table.setData s [] true)
    refine ⟨?_, ?_, ?_⟩
    · intro r hr
      unfold Table.setData at hr ⊢
      rw [processData_data]
      exact (mem_processData_shownData hr).1
    · unfold Table.setData
      rw [processData_max_size, appendRows_spec]
      exact processData_shown_le _
    · intro u hu
      have hs : (Table.setData s [] true).selectedUid = (Table.clearOp s).selectedUid := by
        unfold Table.setData
        rw [processData_selectedUid, appendRows_spec]
        simp
      rw [hs] at hu
      simp only [Table.clearOp] at hu
      rw [hsel] at hu
      cases hu
  · intro hinv
    unfold Table.setFilter
    by_cases hchg : chg = true
    · rw [if_pos hchg]
      refine ⟨?_, ?_, ?_⟩
      · intro r hr
        rw [processData_data]
        exact (mem_processData_shownData hr).1
      · rw [processData_max_size]
        exact processData_shown_le _
      · intro u hu
        rw [processData_selectedUid] at hu
        rw [processData_data]
        exact hinv.2.2 u hu
    · rw [if_neg hchg]
      exact hinv
  · intro hinv
    have hperm := setSort_shownData_perm s fld
    have hdata : (Table.setSort s fld).data = s.data := by
      unfold Table.setSort
      by_cases h : s.sortField = some fld <;> simp [h, sortData_data]
    have hshown : (Table.setSort s fld).shown = s.shown := by
      unfold Table.setSort
      by_cases h : s.sortField = some fld <;> simp [h, sortData_shown]
    have hmax : (Table.setSort s fld).max_size = s.max_size := by
      unfold Table.setSort
      by_cases h : s.sortField = some fld <;> simp [h, sortData_max_size]
    have hsel : (Table.setSort s fld).selectedUid = s.selectedUid := by
      unfold Table.setSort
      by_cases h : s.sortField = some fld <;> simp [h, sortData_selectedUid]
    refine ⟨?_, ?_, ?_⟩
    · intro r hr
      rw [hdata]
      exact hinv.1 r (hperm.mem_iff.mp hr)
    · rw [hshown, hmax]
      exact hinv.2.1
    · intro u hu
      rw [hsel] at hu
      rw [hdata]
      exact hinv.2.2 u hu
  · intro hinv hobj
    cases hsel : s.selectedUid with
    | some u =>
      by_cases hu : u = obj.uid
      · rw [selectRow_of_same s obj u hsel hu]
        exact ⟨hinv.1, hinv.2.1, by intro u' hu'; cases hu'⟩
      · rw [selectRow_of_other s obj u hsel hu]
        refine ⟨hinv.1, hinv.2.1, ?_⟩
        intro u' hu'
        have h2 : some obj.uid = some u' := hu'
        have huid : u' = obj.uid := (Option.some.injEq _ _ ▸ h2).symm
        exact ⟨obj, hobj, huid.symm⟩
    | none =>
      rw [selectRow_of_none s obj hsel]
      refine ⟨hinv.1, hinv.2.1, ?_⟩
      intro u' hu'
      have h2 : some obj.uid = some u' := hu'
      have huid : u' = obj.uid := (Option.some.injEq _ _ ▸ h2).symm
      exact ⟨obj, hobj, huid.symm⟩

/-- Witness for C3 at concrete inputs: the demo table (no selection,
shown rows are its data rows) satisfies the invariant, and the amended
theorem transports it through an appending `_setData`, a `setFilter`, a
`setSort`, and a `_selectRow` of a data row, as well as through a
clearing `_setData` from the unselected state. -/
theorem claim_C3_invariant_amended_witness :
    Table.inv (Table.setData demoTable [[("uid", Json.str "d")]] false)
  ∧ Table.inv (Table.setData demoTable [] true)
  ∧ Table.inv (Table.setFilter demoTable none false)
  ∧ Table.inv (Table.setSort demoTable dateField)
  ∧ Table.inv (Table.selectRow demoTable demoRow0) := by
  have hinv : Table.inv demoTable := by
    refine ⟨?_, ?_, ?_⟩
    · intro r hr
      have h : demoTable.shownData = demoTable.data := rfl
      rw [← h]
      exact hr
    · show (0 + 3 : Nat) ≤ 1000
      omega
    · intro u hu
      have h : demoTable.selectedUid = none := rfl
      rw [h] at hu
      cases hu
  have hmem : demoRow0 ∈ demoTable.data := by
    have h : demoTable.data = [demoRow0, demoRow1, ⟨2, [("uid", Json.str "c"), ("date", Json.num 2)]⟩] := rfl
    rw [h]
    exact List.mem_cons_self _ _
  refine ⟨?_, ?_, ?_, ?_, ?_⟩
  · exact (claim_C3_invariant_amended demoTable [[("uid", Json.str "d")]] false none false dateField demoRow0).2.2.1 hinv
  · exact (claim_C3_invariant_amended demoTable [] true none false dateField demoRow0).2.2.2.1 rfl
  · exact (claim_C3_invariant_amended demoTable [] false none false dateField demoRow0).2.2.2.2.2.1 hinv
  · exact (claim_C3_invariant_amended demoTable [] false none false dateField demoRow0).2.2.2.2.2.2.1 hinv
  · exact (claim_C3_invariant_amended demoTable [] false none false dateField demoRow0).2.2.2.2.2.2.2 hinv hmem

/-! ### C4: the composite entities refresh -/

/-- The two batches of the composite-refresh scenario: three agents,
then two things. -/
def entBatch1 : List Payload :=
  [[("did", Json.str "agent1")], [("did", Json.str "agent2")], [("did", Json.str "agent3")]]

def entBatch2 : List Payload :=
  [[("did", Json.str "thing1")], [("did", Json.str "thing2")]]

def entTable : TableState := Table.mkTable [Field.make (FieldKind.id "did:igo:") "DID" 4]

/-- The entities table state after the clear and the first (agents)
batch, before the second (things) batch lands. -/
def entMid : TableState := Table.setData (Table.clearOp entTable) entBatch1 false

/-- Counterexample to C4 as stated: the shown subsequence is not
computed once after both batches complete — each `_setData` call ends in
`_processData`, so after the first batch alone the shown subsequence has
already been recomputed (it holds the three agent rows and `shown = 3`),
whereas under the claim it would still be the initial empty one. -/
theorem claim_C4_counterexample :
    entMid.shown = 3 ∧ entMid.shownData ≠ [] ∧ entMid.total = 3 := by
  refine ⟨rfl, ?_, rfl⟩
  intro h
  have h3 : entMid.shownData.length = 3 := rfl
  rw [h] at h3
  cases h3

/-- C4 amended: after the initial clear and both non-clearing `_setData`
batches (3 rows then 2), the table holds 5 rows with `_uid`s
`0, 1, 2, 3, 4` in arrival order and `total = 5`; the shown subsequence
is recomputed after each batch (twice, not once), and the final state
equals the one a single `_processData` run over the complete 5-row data
would produce. -/
theorem claim_C4_entities_refresh_amended (s : TableState) (b1 b2 : List Payload)
    (h1 : b1.length = 3) (h2 : b2.length = 2) :
    (EntitiesTable.refreshSteps s b1 b2).total = 5
  ∧ (EntitiesTable.refreshSteps s b1 b2).data.map Row.uid = [0, 1, 2, 3, 4]
  ∧ (EntitiesTable.refreshSteps s b1 b2).data.map Row.fields = b1 ++ b2
  ∧ EntitiesTable.refreshSteps s b1 b2 =
      Table.processData (Table.appendRows (Table.appendRows (Table.clearOp s) b1) b2) := by
  have hkey : EntitiesTable.refreshSteps s b1 b2 =
      Table.processData (Table.appendRows (Table.appendRows (Table.clearOp s) b1) b2) := by
    unfold EntitiesTable.refreshSteps Table.setData
    rw [if_neg (by simp), if_neg (by simp)]
    conv_lhs =>
      rw [processData_only_shown (Table.appendRows (Table.clearOp s) b1)]
    rw [appendRows_ignores_shown, processData_ignores_shown]
  have hdata : (Table.appendRows (Table.appendRows (Table.clearOp s) b1) b2).data
      = rowsFrom 0 b1 ++ rowsFrom b1.length b2 := by
    rw [appendRows_spec, appendRows_spec]
    simp [Table.clearOp]
  have htotal : (Table.appendRows (Table.appendRows (Table.clearOp s) b1) b2).total
      = b1.length + b2.length := by
    rw [appendRows_spec, appendRows_spec]
    simp [Table.clearOp]
  refine ⟨?_, ?_, ?_, hkey⟩
  · rw [hkey, processData_total, htotal, h1, h2]
  · rw [hkey, processData_data, hdata]
    simp only [List.map_append, rowsFrom_map_uid, h1, h2]
    rfl
  · rw [hkey, processData_data, hdata]
    simp [rowsFrom_map_fields]

/-- Witness for C4 at the concrete batches: three agents then two
things give `total = 5` and `_uid`s `0..4`. -/
theorem claim_C4_entities_refresh_amended_witness :
    (EntitiesTable.refreshSteps entTable entBatch1 entBatch2).total = 5
  ∧ (EntitiesTable.refreshSteps entTable entBatch1 entBatch2).data.map Row.uid
      = [0, 1, 2, 3, 4] := by
  have h := claim_C4_entities_refresh_amended entTable entBatch1 entBatch2 rfl rfl
  exact ⟨h.1, h.2.1⟩

/-! ### C6: row selection and the detail text -/

/-- C6: selecting the row that is already selected clears the selection
(no row keeps the `_selected` flag, `detailSelected` becomes `""`);
selecting row `a` and then a different row `b` leaves exactly `b`
flagged and selected; and a (non-toggling) selection sets
`detailSelected` to the row's pretty-printed serialization with every
underscore-prefixed key omitted at every depth. -/
theorem claim_C6_selection (s : TableState) (obj a b : Row) :
    (Table.selWF s → s.selectedUid = some obj.uid →
      (Table.selectRow s obj).selectedUid = none
      ∧ (Table.selectRow s obj).flagged = []
      ∧ (Table.selectRow s obj).detailSelected = "")
  ∧ (Table.selWF s → s.selectedUid ≠ some a.uid → a.uid ≠ b.uid →
      (Table.selectRow (Table.selectRow s a) b).flagged = [b.uid]
      ∧ (Table.selectRow (Table.selectRow s a) b).selectedUid = some b.uid)
  ∧ (s.selectedUid ≠ some obj.uid →
      (Table.selectRow s obj).detailSelected = Table.stringifyRow obj)
  ∧ (∀ r : Row, Table.stringifyRow r = serValue false "" (stripU (Json.obj r.fields))) := by
  refine ⟨?_, ?_, ?_, stringifyRow_eq_plain⟩
  · intro hwf hsel
    rw [selectRow_of_same s obj obj.uid hsel rfl]
    refine ⟨rfl, ?_, rfl⟩
    have hfl : s.flagged = [obj.uid] := by
      unfold Table.selWF at hwf
      rw [hsel] at hwf
      exact hwf
    simp [hfl]
  · intro hwf hne hab
    have step1 : (Table.selectRow s a).flagged = [a.uid]
        ∧ (Table.selectRow s a).selectedUid = some a.uid := by
      cases hsel : s.selectedUid with
      | none =>
        rw [selectRow_of_none s a hsel]
        have hfl : s.flagged = [] := by
          unfold Table.selWF at hwf
          rw [hsel] at hwf
          exact hwf
        simp [hfl]
      | some u =>
        have hua : ¬ u = a.uid := by
          intro h
          exact hne (h ▸ hsel)
        rw [selectRow_of_other s a u hsel hua]
        have hfl : s.flagged = [u] := by
          unfold Table.selWF at hwf
          rw [hsel] at hwf
          exact hwf
        simp [hfl]
    have hba : ¬ a.uid = b.uid := hab
    rw [selectRow_of_other (Table.selectRow s a) b a.uid step1.2 hba]
    simp [step1.1]
  · intro hne
    cases hsel : s.selectedUid with
    | none => rw [selectRow_of_none s obj hsel]
    | some u =>
      have hu : ¬ u = obj.uid := by
        intro h
        exact hne (h ▸ hsel)
      rw [selectRow_of_other s obj u hsel hu]

/-- Witness for C6 at concrete inputs: on the demo table, selecting row
0 then row 0 again clears everything; selecting row 0 then row 1 leaves
only row 1 flagged; a fresh selection stores the scrubbed
serialization. -/
theorem claim_C6_selection_witness :
    ((Table.selectRow (Table.selectRow demoTable demoRow0) demoRow0).selectedUid = none
      ∧ (Table.selectRow (Table.selectRow demoTable demoRow0) demoRow0).flagged = []
      ∧ (Table.selectRow (Table.selectRow demoTable demoRow0) demoRow0).detailSelected = "")
  ∧ ((Table.selectRow (Table.selectRow demoTable demoRow0) demoRow1).flagged = [1]
      ∧ (Table.selectRow (Table.selectRow demoTable demoRow0) demoRow1).selectedUid = some 1)
  ∧ (Table.selectRow demoTable demoRow0).detailSelected = Table.stringifyRow demoRow0 := by
  have hwf0 : Table.selWF demoTable := by
    unfold Table.selWF
    rfl
  have hsel1 : (Table.selectRow demoTable demoRow0).selectedUid = some demoRow0.uid := rfl
  have hwf1 : Table.selWF (Table.selectRow demoTable demoRow0) := by
    unfold Table.selWF
    rfl
  refine ⟨?_, ?_, ?_⟩
  · exact (claim_C6_selection (Table.selectRow demoTable demoRow0) demoRow0 demoRow0 demoRow1).1
      hwf1 hsel1
  · exact (claim_C6_selection demoTable demoRow0 demoRow0 demoRow1).2.1
      hwf0 (by intro h; cases h) (by intro h; cases h)
  · exact (claim_C6_selection demoTable demoRow0 demoRow0 demoRow1).2.2.1
      (by intro h; cases h)

/-! ### C7: the searcher -/

/-- C7: `setSearch` normalizes `None` to the empty term; a term wrapped
in double quotes switches on case-sensitive mode with the quotes
stripped, any other term is lowercased into case-insensitive mode;
`search` then succeeds exactly when the (per-mode case-normalized) term
is a substring of some string value reachable through non-underscore
keys of nested mappings and sequences — non-string leaves never match;
in particular `setSearch('"Exact"')` matches `Exact` only
case-sensitively, while `setSearch("exact")` matches `EXACT`, `Exact`
and `exact`. -/
theorem claim_C7_search_modes (t : String) (sr : Searcher)
    (kvs : List (String × Json)) :
    Searcher.setSearch none = Searcher.setSearch (some "")
  ∧ (Searcher.setSearch none).searchTerm = ""
  ∧ (Searcher.setSearch none).caseSensitive = false
  ∧ (pyStartsWith t "\"" = true → pyEndsWith t "\"" = true →
      Searcher.setSearch (some t) = ⟨(t.drop 1).dropRight 1, true⟩)
  ∧ (¬ (pyStartsWith t "\"" = true ∧ pyEndsWith t "\"" = true) →
      Searcher.setSearch (some t) = ⟨pyLower t, false⟩)
  ∧ (Searcher.searchObj sr kvs = true ↔
      ∃ v ∈ reachableObj kvs, Searcher.matchesStr sr v = true)
  ∧ Searcher.searchObj (Searcher.setSearch (some "\"Exact\""))
      [("k", Json.str "an Exact value")] = true
  ∧ Searcher.searchObj (Searcher.setSearch (some "\"Exact\""))
      [("k", Json.str "an exact value")] = false
  ∧ Searcher.searchObj (Searcher.setSearch (some "exact"))
      [("k", Json.str "EXACT")] = true
  ∧ Searcher.searchObj (Searcher.setSearch (some "exact"))
      [("k", Json.str "Exact")] = true
  ∧ Searcher.searchObj (Searcher.setSearch (some "exact"))
      [("k", Json.str "exact")] = true := by
  refine ⟨rfl, rfl, rfl, ?_, ?_, ?_, rfl, rfl, rfl, rfl, rfl⟩
  · intro hs he
    unfold Searcher.setSearch
    rw [if_pos (by rw [hs, he]; rfl)]
  · intro hm
    unfold Searcher.setSearch
    rw [if_neg ?_]
    intro hand
    rcases Bool.and_eq_true _ _ |>.mp hand with ⟨hs, he⟩
    exact hm ⟨hs, he⟩
  · rw [searchObj_reachable]
    exact List.any_eq_true

/-- Witness for C7 at concrete terms: the quoted term is stripped into
case-sensitive mode, the unquoted term is lowercased, and a nested
object matches exactly when one of its reachable strings contains the
term. -/
theorem claim_C7_search_modes_witness :
    Searcher.setSearch (some "\"Exact\"") = ⟨"Exact", true⟩
  ∧ Searcher.setSearch (some "exact") = ⟨"exact", false⟩
  ∧ (Searcher.searchObj (Searcher.setSearch (some "exact"))
      [("k", Json.arr [Json.obj [("n", Json.str "..Exact..")]])] = true ↔
      ∃ v ∈ reachableObj [("k", Json.arr [Json.obj [("n", Json.str "..Exact..")]])],
        Searcher.matchesStr (Searcher.setSearch (some "exact")) v = true) := by
  refine ⟨?_, ?_, ?_⟩
  · exact (claim_C7_search_modes "\"Exact\"" (Searcher.setSearch none) []).2.2.2.1 rfl rfl
  · exact (claim_C7_search_modes "exact" (Searcher.setSearch none) []).2.2.2.2.1
      (by intro h; cases h.1)
  · exact (claim_C7_search_modes "exact" (Searcher.setSearch (some "exact"))
      [("k", Json.arr [Json.obj [("n", Json.str "..Exact..")]])]).2.2.2.2.2.1

/-! ### C10: the empty search term -/

theorem listSubstr_nil (l : List Char) : listSubstr [] l = true := by
  cases l <;> rfl

theorem any_true_of_forall {α : Type} (p : α → Bool) (l : List α)
    (hp : ∀ x ∈ l, p x = true) : l.any p = !l.isEmpty := by
  cases l with
  | nil => rfl
  | cons x rest =>
    simp [List.any_cons, hp x (List.mem_cons_self _ _)]

/-- C10: after `setSearch` with a null (or empty) term, `search(row)`
succeeds exactly on rows with at least one string value reachable under
non-underscore keys — the empty term is a substring of every string —
and `Tabs.searchAll` on an empty search box installs this predicate as
the filter of every table (it does not clear the filters), so rows
without any reachable string value are hidden from every shown
subsequence. -/
theorem claim_C10_empty_term_filters (tables : List TableState)
    (kvs : List (String × Json)) :
    (Searcher.searchObj (Searcher.setSearch none) kvs = true ↔ reachableObj kvs ≠ [])
  ∧ Searcher.setSearch (some "") = Searcher.setSearch none
  ∧ (∀ t ∈ (Tabs.searchAllOp tables "").2, t.filter.isSome = true)
  ∧ (∀ t ∈ (Tabs.searchAllOp tables "").2, ∀ r ∈ t.shownData,
      reachableObj r.fields ≠ []) := by
  have hmatch : ∀ v, Searcher.matchesStr (Searcher.setSearch none) v = true := by
    intro v
    unfold Searcher.matchesStr
    exact listSubstr_nil _
  have hchar : ∀ kvs' : List (String × Json),
      (Searcher.searchObj (Searcher.setSearch none) kvs' = true ↔
        reachableObj kvs' ≠ []) := by
    intro kvs'
    rw [searchObj_reachable,
      any_true_of_forall _ _ (fun v _ => hmatch v)]
    cases h : reachableObj kvs' <;> simp [h]
  refine ⟨hchar kvs, rfl, ?_, ?_⟩
  · intro t ht
    obtain ⟨t0, _, rfl⟩ := List.mem_map.mp ht
    unfold Table.setFilter
    rw [if_pos rfl, processData_filter]
    rfl
  · intro t ht r hr
    obtain ⟨t0, _, rfl⟩ := List.mem_map.mp ht
    unfold Table.setFilter at hr
    rw [if_pos rfl] at hr
    have hacc := (mem_processData_shownData hr).2
    have hpred : Searcher.searchRow (Searcher.setSearch (some "")) r = true := hacc
    rw [show Searcher.setSearch (some "") = Searcher.setSearch none from rfl] at hpred
    exact (hchar r.fields).mp hpred

/-- Witness for C10: applying `searchAll` with the empty box to the demo
table yields a table whose filter is installed and whose every shown row
has a reachable string; the demo rows all do. -/
theorem claim_C10_empty_term_filters_witness :
    (Searcher.searchObj (Searcher.setSearch none)
        [("uid", Json.str "a"), ("date", Json.num 1)] = true ↔
      reachableObj [("uid", Json.str "a"), ("date", Json.num 1)] ≠ [])
  ∧ (Table.setFilter demoTable
        (some (Searcher.searchRow (Searcher.setSearch (some ""))))
        true).filter.isSome = true := by
  constructor
  · exact (claim_C10_empty_term_filters [demoTable]
      [("uid", Json.str "a"), ("date", Json.num 1)]).1
  · exact (claim_C10_empty_term_filters [demoTable] []).2.2.1
      (Table.setFilter demoTable
        (some (Searcher.searchRow (Searcher.setSearch (some "")))) true)
      (List.mem_singleton.mpr rfl)

/-! ### C5: the aggregate refresh guard -/

/-- C5: a `refresh()` call while a previous aggregate refresh is in
flight returns the identical pending handle and changes nothing — in
particular it starts no per-table refreshes; settlement (fulfilment or
rejection alike) clears the in-flight flag, after which a call always
starts a fresh round with a new handle and one table refresh per tab;
and along every event trace from the initial state the number of rounds
started never exceeds the number of settlements plus one — at most one
aggregate refresh is ever outstanding. -/
theorem claim_C5_refresh_guard (s : TabsState) (evs : List TabsEvent) :
    (s.refreshing = true → Tabs.refreshOp s = (s, s.refreshPromise))
  ∧ (Tabs.settleOp s).refreshing = false
  ∧ (Tabs.refreshOp (Tabs.settleOp s)).1.rounds = s.rounds + 1
  ∧ (Tabs.refreshOp (Tabs.settleOp s)).2 = some s.nextHandle
  ∧ (Tabs.refreshOp (Tabs.settleOp s)).1.tableRefreshes
      = s.tableRefreshes + Tabs.numTabs
  ∧ (Tabs.run Tabs.mkTabs evs).rounds ≤ countSettles evs + 1 := by
  refine ⟨?_, rfl, ?_, ?_, ?_, ?_⟩
  · intro h
    unfold Tabs.refreshOp
    rw [if_pos h]
  · simp [Tabs.refreshOp, Tabs.settleOp]
  · simp [Tabs.refreshOp, Tabs.settleOp]
  · simp [Tabs.refreshOp, Tabs.settleOp]
  · have h := run_potential evs Tabs.mkTabs
    have h0 : tabsPotential Tabs.mkTabs = 1 := rfl
    have h1 : (Tabs.run Tabs.mkTabs evs).rounds ≤ tabsPotential (Tabs.run Tabs.mkTabs evs) := by
      unfold tabsPotential
      by_cases hr : (Tabs.run Tabs.mkTabs evs).refreshing = true <;> simp [hr]
    omega

/-- Witness for C5: after one call from the initial state a second call
returns the same pending handle 0 and the state unchanged; a settle and
a third call then start round 2 with the fresh handle 1. -/
theorem claim_C5_refresh_guard_witness :
    Tabs.refreshOp (Tabs.refreshOp Tabs.mkTabs).1
      = ((Tabs.refreshOp Tabs.mkTabs).1, (Tabs.refreshOp Tabs.mkTabs).1.refreshPromise)
  ∧ (Tabs.refreshOp (Tabs.settleOp (Tabs.refreshOp Tabs.mkTabs).1)).1.rounds
      = (Tabs.refreshOp Tabs.mkTabs).1.rounds + 1
  ∧ (Tabs.run Tabs.mkTabs [TabsEvent.call, TabsEvent.call]).rounds
      ≤ countSettles [TabsEvent.call, TabsEvent.call] + 1 := by
  refine ⟨?_, ?_, ?_⟩
  · exact (claim_C5_refresh_guard (Tabs.refreshOp Tabs.mkTabs).1 []).1 rfl
  · exact (claim_C5_refresh_guard (Tabs.refreshOp Tabs.mkTabs).1 []).2.2.1
  · exact (claim_C5_refresh_guard Tabs.mkTabs [TabsEvent.call, TabsEvent.call]).2.2.2.2.2

/-! ### C9: rendering of missing field values -/

/-- Counterexample to C9 as stated: `EpochField.view(None)` does not
render the empty string.  The `""` substituted for the missing value is
coerced to `0` by the JavaScript division, so `Date(0).toISOString()`
renders the epoch instant. -/
theorem claim_C9_counterexample :
    (FieldKind.view FieldKind.epoch Json.null).text = "1970-01-01T00:00:00.000Z"
  ∧ (FieldKind.view FieldKind.epoch Json.null).text ≠ "" := by
  constructor
  · rfl
  · intro h
    have hlen : (FieldKind.view FieldKind.epoch Json.null).text.length = 24 := rfl
    rw [h] at hlen
    cases hlen

/-- C9 amended: `view(None)` never raises, and renders the empty string
for the base `Field` and the `Fill`/`Date`/`ID`/`DID`/`HID`/`OID`/`MID`
subtypes — but `EpochField.view(None)` renders the ISO timestamp of
epoch zero instead, because the substituted `""` is coerced to `0` by
the host division before `Date(...).toISOString()`. -/
theorem claim_C9_view_missing_amended :
    (FieldKind.view FieldKind.plain Json.null).text = ""
  ∧ (FieldKind.view FieldKind.fill Json.null).text = ""
  ∧ (FieldKind.view FieldKind.date Json.null).text = ""
  ∧ (FieldKind.view (FieldKind.id "") Json.null).text = ""
  ∧ (FieldKind.view (FieldKind.id "did:igo:") Json.null).text = ""
  ∧ (FieldKind.view (FieldKind.id "hid:") Json.null).text = ""
  ∧ (FieldKind.view (FieldKind.id "o_") Json.null).text = ""
  ∧ (FieldKind.view (FieldKind.id "m_") Json.null).text = ""
  ∧ (FieldKind.view FieldKind.epoch Json.null).text = "1970-01-01T00:00:00.000Z"
  ∧ (FieldKind.view FieldKind.plain Json.null).title = ""
  ∧ (FieldKind.view FieldKind.fill Json.null).fill = true := by
  exact ⟨rfl, rfl, rfl, rfl, rfl, rfl, rfl, rfl, rfl, rfl, rfl⟩

end Inspector
